import Mathlib

/-!
Verification of the `build_np_pdf_index.py` fetch-and-catalog pipeline.

This file gives a shallow embedding of the pipeline's pure core: the
identity deriver (`slugify`, `derive_title_from_url`, `secure_filename`),
the fetcher (`download_one`, with the filesystem made explicit and the
network abstracted as an oracle), the CSV row parser (`read_csv_rows`,
over pre-tokenized records), and the catalog builder
(`process_row` / `build_index`, in the sequential `workers <= 1` mode;
the thread-pool branch is not modelled).  Machine strings are Lean
`String`s, byte streams are `List Nat`, and the hash functions
(SHA-256, SHA-1) are implemented in full so that every definition is
executable.

Modelling granularity notes:
* Python's `\w` / `\s` / `str.lower` are Unicode-aware; this embedding
  models them at ASCII granularity (ASCII letters, digits, underscore,
  and ASCII whitespace), which is exact on ASCII input.
* The three non-ASCII punctuation replacements performed explicitly by
  `slugify` (right single quote, en dash, em dash) are modelled exactly.
-/

/-! ### Character classes (ASCII granularity of Python's `\w`, `\s`, `str.lower`) -/

/-- Python `\s` (ASCII part): space, tab, newline, carriage return,
vertical tab, form feed. -/
def pyIsSpace (c : Char) : Bool :=
  c.toNat = 32 || c.toNat = 9 || c.toNat = 10 || c.toNat = 13 ||
  c.toNat = 11 || c.toNat = 12

/-- ASCII uppercase letter. -/
def isUpperA (c : Char) : Bool := 65 ≤ c.toNat && c.toNat ≤ 90

/-- ASCII lowercase letter. -/
def isLowerA (c : Char) : Bool := 97 ≤ c.toNat && c.toNat ≤ 122

/-- ASCII digit. -/
def isDigitA (c : Char) : Bool := 48 ≤ c.toNat && c.toNat ≤ 57

/-- Python `\w` (ASCII part): letters, digits, underscore. -/
def pyIsWord (c : Char) : Bool :=
  isUpperA c || isLowerA c || isDigitA c || c.toNat = 95

/-- A character that may appear in a slug: lowercase word character
(lowercase letter, digit or underscore). -/
def isSlugChar (c : Char) : Bool := isLowerA c || isDigitA c || c.toNat = 95

/-- Python `str.lower` at ASCII granularity. -/
def pyLower (c : Char) : Char :=
  if isUpperA c then Char.ofNat (c.toNat + 32) else c

/-! ### List-level string helpers shared by the embedding -/

/-- Python `str.strip()` (strip characters satisfying `p` from both ends). -/
def pyStrip (p : Char → Bool) (l : List Char) : List Char :=
  ((l.dropWhile p).reverse.dropWhile p).reverse

/-- Replace every maximal run of characters satisfying `p` by the single
character `rep` (the semantics of `re.sub(r"X+", rep, s)` for a
character class `X`).  `inRun` records whether the previous character
was part of a run. -/
def collapseRuns (p : Char → Bool) (rep : Char) : Bool → List Char → List Char
  | _, [] => []
  | inRun, c :: cs =>
    if p c then
      if inRun then collapseRuns p rep true cs
      else rep :: collapseRuns p rep true cs
    else c :: collapseRuns p rep false cs

/-- Embeds `slugify` from the source: strip/lower, normalize the three
punctuation variants, drop non `\w`/`\s`/`-` characters, collapse
whitespace to single hyphens, collapse hyphen runs, trim hyphens,
truncate to 80 chars, fall back to `"file"`. -/
def slugify (s : String) : String :=
  -- value = value.strip().lower()
  let l1 := (pyStrip pyIsSpace s.data).map pyLower
  -- value.replace("’", "'").replace("–", "-").replace("—", "-")
  let l2 := l1.map fun c =>
    if c.toNat = 0x2019 then '\'' else
    if c.toNat = 0x2013 then '-' else
    if c.toNat = 0x2014 then '-' else c
  -- re.sub(r"[^\w\s\-]+", "", value)
  let l3 := l2.filter fun c => pyIsWord c || pyIsSpace c || c = '-'
  -- re.sub(r"\s+", " ", value)
  let l4 := collapseRuns pyIsSpace ' ' false l3
  -- re.sub(r"\s+", "-", value.strip())
  let l5 := collapseRuns pyIsSpace '-' false (pyStrip pyIsSpace l4)
  -- re.sub(r"-{2,}", "-", value)
  let l6 := collapseRuns (fun c => c = '-') '-' false l5
  -- value.strip("-")[:80] or "file"
  let l7 := (pyStrip (fun c => c = '-') l6).take 80
  if l7 = [] then "file" else String.mk l7


/-! ### Byte-level helpers: UTF-8 encoding, hex digests -/

/-- UTF-8 encoding of a single character (as byte values). -/
def utf8Bytes (c : Char) : List Nat :=
  let n := c.toNat
  if n < 0x80 then [n]
  else if n < 0x800 then [0xC0 + n / 64, 0x80 + n % 64]
  else if n < 0x10000 then
    [0xE0 + n / 4096, 0x80 + (n / 64) % 64, 0x80 + n % 64]
  else
    [0xF0 + n / 262144, 0x80 + (n / 4096) % 64, 0x80 + (n / 64) % 64,
     0x80 + n % 64]

/-- UTF-8 encoding of a string (Python's `s.encode("utf-8")`). -/
def strBytes (s : String) : List Nat :=
  s.data.foldr (fun c acc => utf8Bytes c ++ acc) []

/-- Lowercase hex digit for a value `< 16`. -/
def hexDigit (n : Nat) : Char :=
  if n < 10 then Char.ofNat (48 + n) else Char.ofNat (87 + n)

/-- Two-character lowercase hex of one byte. -/
def byteHex (b : Nat) : List Char := [hexDigit (b / 16), hexDigit (b % 16)]

/-- Lowercase hex string of a byte sequence (`hashlib`'s `hexdigest`). -/
def bytesHex (bs : List Nat) : String :=
  String.mk (bs.foldr (fun b acc => byteHex b ++ acc) [])

/-! ### SHA-256 and SHA-1 (faithful executable implementations over `Nat`,
with 32-bit arithmetic written as explicit `% 2^32`). -/

/-- Addition modulo `2^32`. -/
def add32 (a b : Nat) : Nat := (a + b) % 4294967296

/-- Right rotation of a 32-bit word. -/
def rotr32 (n x : Nat) : Nat := (x / 2 ^ n) + (x % 2 ^ n) * 2 ^ (32 - n)

/-- Left rotation of a 32-bit word. -/
def rotl32 (n x : Nat) : Nat := rotr32 (32 - n) x

/-- Bitwise complement of a 32-bit word. -/
def not32 (x : Nat) : Nat := 4294967295 - x

/-- Big-endian 64-bit length field. -/
def be64 (n : Nat) : List Nat :=
  [n / 2 ^ 56 % 256, n / 2 ^ 48 % 256, n / 2 ^ 40 % 256, n / 2 ^ 32 % 256,
   n / 2 ^ 24 % 256, n / 2 ^ 16 % 256, n / 2 ^ 8 % 256, n % 256]

/-- Big-endian bytes of one 32-bit word. -/
def be32 (n : Nat) : List Nat :=
  [n / 2 ^ 24 % 256, n / 2 ^ 16 % 256, n / 2 ^ 8 % 256, n % 256]

/-- Merkle–Damgård padding shared by SHA-1 and SHA-256: append `0x80`,
zeros to 56 mod 64, then the 64-bit big-endian bit length. -/
def shaPad (msg : List Nat) : List Nat :=
  let L := msg.length
  let k := (64 + 56 - (L + 1) % 64) % 64
  msg ++ [0x80] ++ List.replicate k 0 ++ be64 (8 * L)

/-- Split a byte list into 64-byte blocks (`fuel` bounds the number of
blocks; `toBlocks` supplies enough fuel for the whole list). -/
def toBlocksFuel : Nat → List Nat → List (List Nat)
  | _, [] => []
  | 0, _ :: _ => []
  | fuel + 1, l => l.take 64 :: toBlocksFuel fuel (l.drop 64)

/-- Split a byte list into 64-byte blocks. -/
def toBlocks (l : List Nat) : List (List Nat) := toBlocksFuel l.length l

/-- Big-endian 32-bit words of a block. -/
def toWords : List Nat → List Nat
  | b0 :: b1 :: b2 :: b3 :: rest =>
    (b0 * 2 ^ 24 + b1 * 2 ^ 16 + b2 * 2 ^ 8 + b3) :: toWords rest
  | _ => []

/-- The 64 SHA-256 round constants. -/
def K256 : List Nat :=
  [1116352408, 1899447441, 3049323471, 3921009573, 961987163,
   1508970993, 2453635748, 2870763221, 3624381080, 310598401,
   607225278, 1426881987, 1925078388, 2162078206, 2614888103,
   3248222580, 3835390401, 4022224774, 264347078, 604807628,
   770255983, 1249150122, 1555081692, 1996064986, 2554220882,
   2821834349, 2952996808, 3210313671, 3336571891, 3584528711,
   113926993, 338241895, 666307205, 773529912, 1294757372,
   1396182291, 1695183700, 1986661051, 2177026350, 2456956037,
   2730485921, 2820302411, 3259730800, 3345764771, 3516065817,
   3600352804, 4094571909, 275423344, 430227734, 506948616,
   659060556, 883997877, 958139571, 1322822218, 1537002063,
   1747873779, 1955562222, 2024104815, 2227730452, 2361852424,
   2428436474, 2756734187, 3204031479, 3329325298]

/-- SHA-256 initial hash state. -/
def H256 : List Nat :=
  [1779033703, 3144134277, 1013904242, 2773480762,
   1359893119, 2600822924, 528734635, 1541459225]

/-- One step of the SHA-256 message-schedule extension. -/
def schedStep256 (w : List Nat) : List Nat :=
  let i := w.length
  let w15 := w.getD (i - 15) 0
  let w2 := w.getD (i - 2) 0
  let s0 := (rotr32 7 w15) ^^^ (rotr32 18 w15) ^^^ (w15 / 2 ^ 3)
  let s1 := (rotr32 17 w2) ^^^ (rotr32 19 w2) ^^^ (w2 / 2 ^ 10)
  w ++ [add32 (add32 (w.getD (i - 16) 0) s0) (add32 (w.getD (i - 7) 0) s1)]

/-- Iterate a state transformer `k` times. -/
def iterN (f : α → α) : Nat → α → α
  | 0, a => a
  | k + 1, a => iterN f k (f a)

/-- One SHA-256 compression round.  State is `[a,b,c,d,e,f,g,h]`. -/
def round256 (st : List Nat) (kw : Nat × Nat) : List Nat :=
  match st with
  | [a, b, c, d, e, f, g, h] =>
    let S1 := (rotr32 6 e) ^^^ (rotr32 11 e) ^^^ (rotr32 25 e)
    let ch := (e &&& f) ^^^ ((not32 e) &&& g)
    let t1 := add32 (add32 h S1) (add32 ch (add32 kw.1 kw.2))
    let S0 := (rotr32 2 a) ^^^ (rotr32 13 a) ^^^ (rotr32 22 a)
    let mj := (a &&& b) ^^^ (a &&& c) ^^^ (b &&& c)
    let t2 := add32 S0 mj
    [add32 t1 t2, a, b, c, add32 d t1, e, f, g]
  | st => st

/-- SHA-256 compression of one 64-byte block into the hash state. -/
def compress256 (hs : List Nat) (block : List Nat) : List Nat :=
  let w := iterN schedStep256 48 (toWords block)
  let st := (K256.zip w).foldl round256 hs
  List.zipWith add32 hs st

/-- SHA-256 digest bytes of a message. -/
def sha256Bytes (msg : List Nat) : List Nat :=
  ((toBlocks (shaPad msg)).foldl compress256 H256).foldr
    (fun wrd acc => be32 wrd ++ acc) []

/-- Models `hashlib.sha256(s.encode("utf-8")).hexdigest()`. -/
def sha256Hex (s : String) : String := bytesHex (sha256Bytes (strBytes s))

/-- SHA-1 initial hash state. -/
def H1 : List Nat := [1732584193, 4023233417, 2562383102, 271733878, 3285377520]

/-- One step of the SHA-1 message-schedule extension. -/
def schedStep1 (w : List Nat) : List Nat :=
  let i := w.length
  w ++ [rotl32 1 ((w.getD (i - 3) 0) ^^^ (w.getD (i - 8) 0) ^^^
                  (w.getD (i - 14) 0) ^^^ (w.getD (i - 16) 0))]

/-- SHA-1 round function and constant for round `t`. -/
def f1k (t b c d : Nat) : Nat × Nat :=
  if t < 20 then ((b &&& c) ||| ((not32 b) &&& d), 1518500249)
  else if t < 40 then (b ^^^ c ^^^ d, 1859775393)
  else if t < 60 then ((b &&& c) ||| (b &&& d) ||| (c &&& d), 2400959708)
  else (b ^^^ c ^^^ d, 3395469782)

/-- One SHA-1 compression round.  State is `[a,b,c,d,e]`. -/
def round1 (st : List Nat) (tw : Nat × Nat) : List Nat :=
  match st with
  | [a, b, c, d, e] =>
    let fk := f1k tw.1 b c d
    let tmp := add32 (add32 (rotl32 5 a) fk.1) (add32 e (add32 fk.2 tw.2))
    [tmp, a, rotl32 30 b, c, d]
  | st => st

/-- SHA-1 compression of one 64-byte block into the hash state. -/
def compress1 (hs : List Nat) (block : List Nat) : List Nat :=
  let w := iterN schedStep1 64 (toWords block)
  let st := ((List.range 80).zip w).foldl round1 hs
  List.zipWith add32 hs st

/-- SHA-1 digest bytes of a message. -/
def sha1Bytes (msg : List Nat) : List Nat :=
  ((toBlocks (shaPad msg)).foldl compress1 H1).foldr
    (fun wrd acc => be32 wrd ++ acc) []

/-- Models `hashlib.sha1(s.encode("utf-8")).hexdigest()`. -/
def sha1Hex (s : String) : String := bytesHex (sha1Bytes (strBytes s))


/-! ### Decimal representation of naturals (Python's `f"{i}"`) -/

/-- Decimal digits with explicit fuel (structural recursion so that the
kernel can evaluate it; `natDigits` supplies enough fuel). -/
def natDigitsFuel : Nat → Nat → List Char
  | 0, _ => []
  | fuel + 1, n =>
    if n < 10 then [Char.ofNat (48 + n)]
    else natDigitsFuel fuel (n / 10) ++ [Char.ofNat (48 + n % 10)]

/-- Decimal digits of a natural number, most significant first. -/
def natDigits (n : Nat) : List Char := natDigitsFuel (n + 1) n

/-- Python `f"{i}"` for a natural number. -/
def natStr (n : Nat) : String := String.mk (natDigits n)

/-! ### URL path extraction (CPython `urllib.parse.urlparse(url).path`)
and `os.path.basename`.  Modelled after CPython's `urlsplit`:
remove tab/CR/LF, split off the scheme, the `//netloc`, the fragment,
the query, and finally (for schemes that use parameters) the `;params`
of the last path segment. -/

/-- A character allowed in a URL scheme after the first letter. -/
def isSchemeChar (c : Char) : Bool :=
  isUpperA c || isLowerA c || isDigitA c || c = '+' || c = '-' || c = '.'

/-- Schemes for which `urlparse` splits `;params` off the path
(CPython's `uses_params`, restricted to nonempty names plus `""`). -/
def usesParams : List String :=
  ["", "ftp", "hdl", "prospero", "http", "imap", "wais", "file", "mms",
   "https", "shttp", "rtsp", "rtspu", "sip", "sips", "sftp", "tel"]

/-- Split `l` at the first occurrence of the last occurrence of `c`:
returns `(before, rest)` with `l = before ++ rest`, where `rest` starts
with the last occurrence of `c` if `c ∈ l`, and `before = []`,
`rest = l` otherwise. -/
def breakAtLast (c : Char) : List Char → List Char × List Char
  | [] => ([], [])
  | a :: as =>
    if c ∈ as then (a :: (breakAtLast c as).1, (breakAtLast c as).2)
    else ([], a :: as)

/-- Models `os.path.basename` (POSIX): everything after the last `/`. -/
def pyBasename (s : String) : String :=
  let q := (breakAtLast '/' s.data).2
  if q.head? = some '/' then String.mk (q.drop 1) else String.mk q

/-- The scheme prefix of a URL, with the remainder after the `:`;
`none` when the URL has no valid scheme. -/
def splitScheme (l : List Char) : Option (List Char × List Char) :=
  match l.findIdx? (· = ':') with
  | none => none
  | some i =>
    let s := l.take i
    if (decide (0 < i) &&
        (match s with | c :: _ => isUpperA c || isLowerA c | [] => false) &&
        s.all isSchemeChar)
    then some (s.map pyLower, l.drop (i + 1))
    else none

/-- Models `urlparse(url).path`. -/
def urlPath (url : String) : String :=
  -- CPython removes ASCII tab, CR and LF before parsing
  let l0 := url.data.filter fun c => c ≠ '\t' ∧ c.toNat ≠ 13 ∧ c.toNat ≠ 10
  let (scheme, l1) :=
    match splitScheme l0 with
    | some (s, rest) => (String.mk s, rest)
    | none => ("", l0)
  -- netloc: if the remainder starts with "//", up to the next "/", "?" or "#"
  let l2 :=
    match l1 with
    | '/' :: '/' :: rest => rest.dropWhile fun c => c ≠ '/' ∧ c ≠ '?' ∧ c ≠ '#'
    | _ => l1
  -- fragment, then query
  let l3 := l2.takeWhile (· ≠ '#')
  let l4 := l3.takeWhile (· ≠ '?')
  -- params of the last path segment, for schemes that use them
  let l5 :=
    if scheme ∈ usesParams ∧ ';' ∈ l4 then
      if '/' ∈ l4 then
        let (p, q) := breakAtLast '/' l4
        p ++ q.takeWhile (· ≠ ';')
      else l4.takeWhile (· ≠ ';')
    else l4
  String.mk l5

/-- Models `re.sub(r"\.pdf($|\?.*)", "", s, flags=re.I)`: remove a
case-insensitive `.pdf` that is followed by the end of the string or by
`?` and arbitrary text (the leftmost such match; the regex consumes the
rest of the string, so the result is the text before the match). -/
def stripPdfSuffix (s : String) : String :=
  let l := s.data
  let matchAt : Nat → Bool := fun i =>
    ((l.drop i).take 4).map pyLower = ['.', 'p', 'd', 'f'] &&
    (i + 4 = l.length || l.getD (i + 4) ' ' = '?')
  match (List.range l.length).find? matchAt with
  | some i => String.mk (l.take i)
  | none => s


/-! ### `derive_title_from_url` -/

/-- Models `re.sub(r"(?<=[a-z])(?=[A-Z])", " ", s)`: insert a space at every
lower-to-upper transition. -/
def camelSplit : List Char → List Char
  | [] => []
  | [c] => [c]
  | a :: b :: rest =>
    if isLowerA a && isUpperA b then a :: ' ' :: camelSplit (b :: rest)
    else a :: camelSplit (b :: rest)

/-- Python `s.split()`: maximal runs of non-whitespace characters. -/
def pySplitWs : List Char → List (List Char)
  | [] => []
  | c :: cs =>
    if pyIsSpace c then pySplitWs cs
    else
      match pySplitWs cs with
      | [] => [[c]]
      | w :: ws => if pyIsSpace (cs.headD ' ') then [c] :: w :: ws else (c :: w) :: ws

/-- Python `str.isupper` at ASCII granularity: at least one cased
character and no lowercase one. -/
def pyIsUpperStr (w : List Char) : Bool :=
  w.any (fun c => isUpperA c || isLowerA c) && w.all (fun c => !isLowerA c)

/-- Python `str.capitalize` at ASCII granularity. -/
def pyCapitalize (w : List Char) : List Char :=
  match w with
  | [] => []
  | c :: cs => (if isLowerA c then Char.ofNat (c.toNat - 32) else c) :: cs.map pyLower

/-- Does the word list end the string with a year-like or version-like
token (`20\d{2}`, `19\d{2}` or `v\d+`), per the regex
`[ _-]?(20\d{2}|19\d{2}|v\d+)$`?  `matchCore l` checks the token body. -/
def yearVerCore (l : List Char) : Bool :=
  match l with
  | ['2', '0', a, b] => isDigitA a && isDigitA b
  | ['1', '9', a, b] => isDigitA a && isDigitA b
  | 'v' :: rest => rest ≠ [] && rest.all isDigitA
  | _ => false

/-- Whole-tail match of `[ _-]?(20\d{2}|19\d{2}|v\d+)`. -/
def yearVerTail (l : List Char) : Bool :=
  yearVerCore l ||
  (match l with
   | c :: rest => (c = ' ' || c = '_' || c = '-') && yearVerCore rest
   | [] => false)

/-- Models `re.sub(r"[ _-]?(20\d{2}|19\d{2}|v\d+)$", "", s)`: drop the leftmost
suffix matching the pattern, if any. -/
def stripYearVer (s : String) : String :=
  let l := s.data
  match (List.range l.length).find? (fun i => yearVerTail (l.drop i)) with
  | some i => String.mk (l.take i)
  | none => s

/-- Embeds `derive_title_from_url` from the source. -/
def derive_title_from_url (url : String) : String :=
  let name0 := pyBasename (urlPath url)
  let name1 := if name0 = "" then "Map" else name0
  let name2 := stripPdfSuffix name1
  let name3 := name2.data.map fun c => if c = '_' || c = '-' then ' ' else c
  let name4 := camelSplit name3
  let name5 := pyStrip pyIsSpace (collapseRuns pyIsSpace ' ' false name4)
  let name6 := if 80 < name5.length
    then (pyStrip pyIsSpace (stripYearVer (String.mk name5)).data)
    else name5
  let words := pySplitWs name6
  let titled := words.map fun w =>
    if pyIsUpperStr w && w.length ≤ 4 then w else pyCapitalize w
  let out := String.intercalate " " (titled.map String.mk)
  if out = "" then "Map" else out


/-! ### `secure_filename` -/

/-- The stem of the derived file name:
`{slug(park)}__{slug(basename minus .pdf)}__{first 8 hex chars of SHA-256(url)}`. -/
def filenameStem (park url : String) : String :=
  let park_slug := slugify park
  let base0 := pyBasename (urlPath url)
  let base := if base0 = "" then "map.pdf" else base0
  let bslug := slugify (stripPdfSuffix base)
  let base_slug := if bslug = "" then "map" else bslug
  let h := (sha256Hex url).take 8
  park_slug ++ "__" ++ base_slug ++ "__" ++ h

/-- The `i`-th collision-resolution candidate `{stem}-{i}.pdf`. -/
def altName (stem : String) (i : Nat) : String :=
  stem ++ "-" ++ natStr i ++ ".pdf"

/-- Embeds `secure_filename` from the source.  The base candidate is
`{stem}.pdf`; on a collision with `existing`, candidates `{stem}-1.pdf`,
`{stem}-2.pdf`, … are tried in order until one is free.  The source
uses an unbounded `while True` loop; `existing.length + 1` candidates
always contain a free one (`secure_filename_spec` below), so the search
is modelled as the first free candidate among that many, and the final
fallback branch is unreachable. -/
def secure_filename (park url : String) (existing : List String) : String :=
  let stem := filenameStem park url
  let guess := stem ++ ".pdf"
  if guess ∈ existing then
    match (List.range (existing.length + 1)).find?
        (fun k => !(existing.contains (altName stem (k + 1)))) with
    | some k => altName stem (k + 1)
    | none => guess
  else guess

/-! ### `split_states` -/

/-- Models `re.split(r"[;,]", s)`: split at every `;` or `,` (empty pieces kept). -/
def splitSemiComma : List Char → List (List Char)
  | [] => [[]]
  | c :: cs =>
    let r := splitSemiComma cs
    if c = ';' || c = ',' then [] :: r
    else
      match r with
      | [] => [[c]]
      | w :: ws => (c :: w) :: ws

/-- Embeds `split_states` from the source: split on `;`/`,`, strip each token,
keep the nonempty ones. -/
def split_states (s : String) : List String :=
  ((splitSemiComma s.data).map (fun t => String.mk (pyStrip pyIsSpace t))).filter
    (· ≠ "")


/-! ### Filesystem model

The run only ever touches files inside the PDF store directory, so the
filesystem is an association list from file name (within the store) to
file content (bytes).  `os.listdir` is the list of keys. -/

/-- Store-directory contents: file name to byte content. -/
abbrev Fs : Type := List (String × List Nat)

/-- Delete a file (no-op when absent). -/
def removeFile (fs : Fs) (p : String) : Fs :=
  fs.filter (fun e => e.1 ≠ p)

/-- Create or overwrite a file. -/
def setFile (fs : Fs) (p : String) (bs : List Nat) : Fs :=
  (p, bs) :: removeFile fs p

/-- Models `Path.suffix`: the final `.`-extension of the basename, empty when
the basename has no dot past position 0. -/
def pathSuffix (p : String) : String :=
  let b := (pyBasename p).data
  let pq := breakAtLast '.' b
  if pq.1 ≠ [] ∧ pq.2.head? = some '.' then String.mk pq.2 else ""

/-- Models `dest.with_suffix(dest.suffix + ".part")`: replace the final
extension `suf` by `suf + ".part"` — that is, append `".part"`
(`tmpName_eq` below). -/
def tmpName (dest : String) : String :=
  let suf := pathSuffix dest
  String.mk (dest.data.take (dest.data.length - suf.length)) ++ suf ++ ".part"

/-- Outcome of one HTTP GET, as observed by `download_one`: an exception
before the temp file is opened (connection error, timeout, non-2xx
status), an exception in mid-transfer after `bs` bytes were written, or
a complete transfer of `bs` bytes. -/
inductive NetOutcome where
  | failBefore : NetOutcome
  | failMid (bs : List Nat) : NetOutcome
  | success (bs : List Nat) : NetOutcome
deriving DecidableEq, Repr, Inhabited

/-- Embeds `download_one` from the source.  The `requests` session, timeout and
TLS-verification flag are abstracted into the network oracle `net`,
which gives the outcome of the GET for a URL.  On success the bytes are
streamed to the temp file (counted and hashed as they arrive) and the
temp file is renamed onto `dest`; on any exception the except-branch
returns `(False, 0, "")`, leaving `dest` untouched and at most an
abandoned temp file behind. -/
def download_one (net : String → NetOutcome) (url dest : String) (fs : Fs) :
    Fs × (Bool × Nat × String) :=
  match net url with
  | .failBefore => (fs, (false, 0, ""))
  | .failMid bs => (setFile fs (tmpName dest) bs, (false, 0, ""))
  | .success bs =>
    (setFile (removeFile fs (tmpName dest)) dest bs,
     (true, bs.length, bytesHex (sha256Bytes bs)))

/-! ### The catalog builder -/

/-- An input row (after CSV parsing). -/
structure Row where
  park : String
  state : String
  pdf_url : String
deriving DecidableEq, Repr, Inhabited

/-- A catalog entry, with the exact fields written to the JSON index. -/
structure Item where
  id : String
  park : String
  states : List String
  title : String
  filename : String
  path : String
  size_bytes : Nat
  sha256 : String
  source_url : String
  download_ok : Bool
deriving DecidableEq, Repr, Inhabited

/-- State threaded through the run: the store directory, the dedup-key
set `seen_keys`, the accumulated `items`, and (as instrumentation for
the zero-network-requests property) the log of URLs for which
`download_one` was invoked. -/
structure RunState where
  fs : Fs
  seen : List (String × String)
  items : List Item
  fetchLog : List String
deriving DecidableEq, Repr, Inhabited

/-- The dedup key of a row. -/
def rowKey (r : Row) : String × String := (r.park, r.pdf_url)

/-- The dedup key recorded in an emitted item. -/
def itemKey (it : Item) : String × String := (it.park, it.source_url)

/-- Models `hashlib.sha1(f"{park}|{url}".encode("utf-8")).hexdigest()[:12]`. -/
def idHash (park url : String) : String :=
  (sha1Hex (park ++ "|" ++ url)).take 12

/-- Embeds `process_row` from the source (the closure inside `build_index`),
processed sequentially.  `existingNames` is the pre-seeded
`existing_names` set — the source never updates it during the run. -/
def process_row (existingNames : List String) (dirname : String)
    (force : Bool) (net : String → NetOutcome) (st : RunState) (r : Row) :
    RunState :=
  if rowKey r ∈ st.seen then st
  else
    let seen' := st.seen ++ [rowKey r]
    let title := derive_title_from_url r.pdf_url
    let filename := secure_filename r.park r.pdf_url existingNames
    let dest := filename
    if (List.lookup dest st.fs).isSome && !force then
      { fs := st.fs, seen := seen',
        items := st.items ++
          [{ id := idHash r.park r.pdf_url, park := r.park,
             states := split_states r.state, title := title,
             filename := filename, path := dirname ++ "/" ++ filename,
             size_bytes := ((List.lookup dest st.fs).getD []).length,
             sha256 := "", source_url := r.pdf_url, download_ok := true }],
        fetchLog := st.fetchLog }
    else
      let res := download_one net r.pdf_url dest st.fs
      { fs := res.1, seen := seen',
        items := st.items ++
          [{ id := idHash r.park r.pdf_url, park := r.park,
             states := split_states r.state, title := title,
             filename := filename, path := dirname ++ "/" ++ filename,
             size_bytes := res.2.2.1, sha256 := res.2.2.2,
             source_url := r.pdf_url, download_ok := res.2.1 }],
        fetchLog := st.fetchLog ++ [r.pdf_url] }

/-- Embeds `build_index` from the source, in the sequential `workers <= 1`
branch (a plain fold over the rows; the thread-pool branch only changes
scheduling).  `existing_names` is seeded from the directory listing
once, before any row is processed. -/
def build_index_state (rows : List Row) (fs0 : Fs) (dirname : String)
    (force : Bool) (net : String → NetOutcome) : RunState :=
  rows.foldl (process_row (fs0.map Prod.fst) dirname force net)
    { fs := fs0, seen := [], items := [], fetchLog := [] }

/-- The JSON document assembled at the end of `build_index`. -/
structure IndexOut where
  generated_at : String
  source_csv : String
  total_items : Nat
  items : List Item
deriving DecidableEq, Repr, Inhabited

/-- The return value of `build_index` (`generated_at` is passed in, standing
for `datetime.now`; `source_csv` is filled by the caller in the source). -/
def build_index (now : String) (rows : List Row) (fs0 : Fs)
    (dirname : String) (force : Bool) (net : String → NetOutcome) :
    IndexOut :=
  let st := build_index_state rows fs0 dirname force net
  { generated_at := now, source_csv := "",
    total_items := st.items.length, items := st.items }

/-! ### CSV row parsing (`read_csv_rows`)

`csv.DictReader` is modelled over pre-tokenized records: a header line
(the `fieldnames`) and one list of cell strings per data row.  A value
missing from a short row is `None`, which `(r.get(...) or "")` turns
into `""`; extra cells beyond the header are ignored (`DictReader`
stores them under its rest key, which the source never reads). -/

/-- Python `s.strip()` on a string. -/
def pyStripStr (s : String) : String := String.mk (pyStrip pyIsSpace s.data)

/-- Models `(r.get(f) or "")`: the cell under header column `f`, or `""`. -/
def getCol (fieldnames : List String) (rec : List String) (f : String) :
    String :=
  match fieldnames.findIdx? (· = f) with
  | some i => rec.getD i ""
  | none => ""

/-- One `DictReader` row turned into a `Row`, or dropped when the
park or the URL is blank after stripping. -/
def rowOfRecord (fieldnames : List String) (rec : List String) :
    Option Row :=
  let url := pyStripStr (getCol fieldnames rec "pdf_url")
  let park := pyStripStr (getCol fieldnames rec "park")
  let state := pyStripStr (getCol fieldnames rec "state")
  if url = "" || park = "" then none
  else some { park := park, state := state, pdf_url := url }

/-- The columns `read_csv_rows` requires. -/
def requiredCols : List String := ["park", "state", "pdf_url"]

/-- Embeds `read_csv_rows` from the source: check the header, then keep the
rows with a nonblank park and URL. -/
def read_csv_rows (fieldnames : List String)
    (records : List (List String)) : Except String (List Row) :=
  if requiredCols.all (fun f => fieldnames.contains f) then
    .ok (records.filterMap (rowOfRecord fieldnames))
  else .error "CSV must have columns: park,state,pdf_url"

/-- Models the data path of `main`: parse the CSV, then build the index.  A header
error propagates before `build_index` runs, so no entry is produced and
no network activity happens. -/
def run_pipeline (fieldnames : List String) (records : List (List String))
    (fs0 : Fs) (dirname : String) (force : Bool)
    (net : String → NetOutcome) : Except String RunState :=
  match read_csv_rows fieldnames records with
  | .error e => .error e
  | .ok rows => .ok (build_index_state rows fs0 dirname force net)

/-! ### Additional named stages and predicates used by the proofs -/

/-- No two adjacent characters are both `-`. -/
def noAdjHyphens : List Char → Bool
  | a :: b :: t => !(a == '-' && b == '-') && noAdjHyphens (b :: t)
  | _ => true

/-- The punctuation-normalization stage of `slugify`, named for the
proofs below (definitionally the map in `slugify`). -/
def pyReplPunct (l : List Char) : List Char :=
  l.map fun c =>
    if c.toNat = 0x2019 then '\'' else
    if c.toNat = 0x2013 then '-' else
    if c.toNat = 0x2014 then '-' else c

/-- The filter/collapse/trim/truncate stages of `slugify`, named for the
proofs below (definitionally the tail of `slugify`). -/
def slugTail (l2 : List Char) : List Char :=
  (pyStrip (fun c => c = '-')
    (collapseRuns (fun c => c = '-') '-' false
      (collapseRuns pyIsSpace '-' false
        (pyStrip pyIsSpace
          (collapseRuns pyIsSpace ' ' false
            (l2.filter fun c => pyIsWord c || pyIsSpace c || c = '-')))))).take 80

/-- The dedup-key sequence: the keys of `ks` in order, dropping any key
already in `seen` or seen earlier in `ks` (first occurrence wins). -/
def dedupKeysFrom : List (String × String) → List (String × String) →
    List (String × String)
  | _, [] => []
  | seen, k :: ks =>
    if k ∈ seen then dedupKeysFrom seen ks
    else k :: dedupKeysFrom (seen ++ [k]) ks

/-- The rows that survive dedup: first occurrence of each key wins. -/
def dedupRowsFrom : List (String × String) → List Row → List Row
  | _, [] => []
  | seen, r :: rs =>
    if rowKey r ∈ seen then dedupRowsFrom seen rs
    else r :: dedupRowsFrom (seen ++ [rowKey r]) rs

/-! ### Sanity checks of the embedding on concrete inputs -/

example : slugify "  Acadia National Park " = "acadia-national-park" := by decide
example : slugify "a  --  b" = "a-b" := by decide
example : slugify "!!!" = "file" := by decide
example : slugify "Moo_se 42" = "moo_se-42" := by decide
example : stripPdfSuffix "Acadia_Trails_2020.pdf" = "Acadia_Trails_2020" := by decide
example : stripPdfSuffix "a.PDF?x=1" = "a" := by decide
example : stripPdfSuffix "a.pdf.pdf" = "a.pdf" := by decide
example : stripPdfSuffix "a.txt" = "a.txt" := by decide

/-! ### Lemmas: character helpers -/

theorem toNat_ofNat_valid {n : Nat} (h : n < 0xd800) :
    (Char.ofNat n).toNat = n := by
  rw [Char.ofNat, dif_pos (Or.inl h : n.isValidChar)]
  rfl

theorem pyLower_not_upper (c : Char) : isUpperA (pyLower c) = false := by
  unfold pyLower
  by_cases h : isUpperA c = true
  · rw [if_pos h]
    unfold isUpperA at h ⊢
    simp only [Bool.and_eq_true, decide_eq_true_eq] at h
    have hv : c.toNat + 32 < 0xd800 := by omega
    have h90 : ¬(c.toNat + 32 ≤ 90) := by omega
    simp [toNat_ofNat_valid hv, h90]
  · rw [if_neg h]
    simpa using h

theorem isSlugChar_of_word_not_upper {c : Char} (hw : pyIsWord c = true)
    (hu : isUpperA c = false) : isSlugChar c = true := by
  unfold pyIsWord at hw
  unfold isSlugChar
  simp only [Bool.or_eq_true] at hw ⊢
  rcases hw with ((h | h) | h) | h
  · rw [h] at hu; cases hu
  · exact Or.inl (Or.inl h)
  · exact Or.inl (Or.inr h)
  · exact Or.inr h

/-! ### Lemmas: `pyStrip`, `collapseRuns` -/

theorem mem_pyStrip {p : Char → Bool} {l : List Char} {c : Char}
    (h : c ∈ pyStrip p l) : c ∈ l := by
  unfold pyStrip at h
  rw [List.mem_reverse] at h
  have h1 := (List.dropWhile_sublist p).mem h
  rw [List.mem_reverse] at h1
  exact (List.dropWhile_sublist p).mem h1

theorem chain'_reverse_of_symm {R : Char → Char → Prop}
    (hsymm : ∀ a b, R a b → R b a) {l : List Char} (h : l.Chain' R) :
    l.reverse.Chain' R :=
  List.chain'_reverse.mpr (h.imp fun a b hab => hsymm a b hab)

theorem pyStrip_suffix_chain {R : Char → Char → Prop}
    (hsymm : ∀ a b, R a b → R b a) {p : Char → Bool} {l : List Char}
    (h : l.Chain' R) : (pyStrip p l).Chain' R :=
  chain'_reverse_of_symm hsymm
    (((chain'_reverse_of_symm hsymm
        (h.suffix (List.dropWhile_suffix p))).suffix
      (List.dropWhile_suffix p)))

theorem mem_collapseRuns {p : Char → Bool} {rep : Char} {b : Bool}
    {l : List Char} {c : Char} (h : c ∈ collapseRuns p rep b l) :
    c = rep ∨ (c ∈ l ∧ p c = false) := by
  induction l generalizing b with
  | nil => simp [collapseRuns] at h
  | cons a as ih =>
    unfold collapseRuns at h
    by_cases hp : p a = true
    · rw [if_pos hp] at h
      cases b with
      | true =>
        rcases ih h with h | ⟨h1, h2⟩
        · exact Or.inl h
        · exact Or.inr ⟨List.mem_cons_of_mem a h1, h2⟩
      | false =>
        rcases List.mem_cons.mp h with h | h
        · exact Or.inl h
        · rcases ih h with h | ⟨h1, h2⟩
          · exact Or.inl h
          · exact Or.inr ⟨List.mem_cons_of_mem a h1, h2⟩
    · rw [if_neg hp] at h
      rcases List.mem_cons.mp h with h | h
      · subst h
        exact Or.inr ⟨List.mem_cons_self c as, Bool.not_eq_true _ ▸ hp⟩
      · rcases ih h with h | ⟨h1, h2⟩
        · exact Or.inl h
        · exact Or.inr ⟨List.mem_cons_of_mem a h1, h2⟩

theorem collapseRuns_head_not {p : Char → Bool} {rep : Char} {l : List Char}
    {c : Char} (h : (collapseRuns p rep true l).head? = some c) :
    p c = false := by
  induction l with
  | nil => simp [collapseRuns] at h
  | cons a as ih =>
    unfold collapseRuns at h
    by_cases hp : p a = true
    · rw [if_pos hp] at h
      exact ih h
    · rw [if_neg hp] at h
      simp only [List.head?_cons, Option.some.injEq] at h
      subst h
      exact Bool.not_eq_true _ ▸ hp

theorem collapseRuns_chain' {p : Char → Bool} {rep : Char} (l : List Char)
    (b : Bool) :
    (collapseRuns p rep b l).Chain'
      (fun a c => ¬(p a = true ∧ p c = true)) := by
  induction l generalizing b with
  | nil => simp [collapseRuns]
  | cons a as ih =>
    unfold collapseRuns
    by_cases hp : p a = true
    · rw [if_pos hp]
      cases b with
      | true => exact ih true
      | false =>
        rw [if_neg Bool.false_ne_true, List.chain'_cons']
        refine ⟨fun y hy => ?_, ih true⟩
        intro ⟨_, hy2⟩
        rw [collapseRuns_head_not (Option.mem_def.mp hy)] at hy2
        cases hy2
    · rw [if_neg hp]
      rw [List.chain'_cons']
      refine ⟨fun y hy => ?_, ih false⟩
      intro ⟨h1, _⟩
      exact hp h1

/-! ### No adjacent hyphens -/

theorem noAdjHyphens_iff {l : List Char} :
    noAdjHyphens l = true ↔ l.Chain' (fun a b => ¬(a = '-' ∧ b = '-')) := by
  induction l with
  | nil => simp [noAdjHyphens]
  | cons a t ih =>
    cases t with
    | nil => simp [noAdjHyphens]
    | cons b t' =>
      rw [show noAdjHyphens (a :: b :: t') =
            (!(a == '-' && b == '-') && noAdjHyphens (b :: t')) from rfl,
        List.chain'_cons, Bool.and_eq_true, ← ih]
      simp only [Bool.not_eq_true', Bool.and_eq_false_iff, beq_eq_false_iff_ne,
        ne_eq, not_and]
      constructor
      · rintro ⟨h1, h2⟩
        refine ⟨fun ha hb => ?_, h2⟩
        rcases h1 with h | h <;> [exact h ha; exact h hb]
      · rintro ⟨h1, h2⟩
        refine ⟨?_, h2⟩
        by_cases ha : a = '-'
        · exact Or.inr (h1 ha)
        · exact Or.inl ha

/-- Assembly of the final step of `slugify`. -/
theorem slug_out_spec (l : List Char)
    (hmem : ∀ c ∈ l, isSlugChar c = true ∨ c = '-')
    (hchain : l.Chain' (fun a b => ¬(a = '-' ∧ b = '-')))
    (hlen : l.length ≤ 80) :
    (if l = [] then "file" else String.mk l) ≠ "" ∧
    (if l = [] then "file" else String.mk l).length ≤ 80 ∧
    (∀ c ∈ (if l = [] then "file" else String.mk l).data,
      isSlugChar c = true ∨ c = '-') ∧
    noAdjHyphens (if l = [] then "file" else String.mk l).data = true := by
  by_cases h : l = []
  · rw [if_pos h]
    refine ⟨by decide, by decide, ?_, by decide⟩
    intro c hc
    fin_cases hc <;> simp [isSlugChar, isLowerA]
  · rw [if_neg h]
    refine ⟨?_, hlen, hmem, noAdjHyphens_iff.mpr hchain⟩
    intro heq
    exact h (by simpa using congrArg String.data heq)

theorem repl_not_upper {d : Char} (hd : isUpperA d = false) :
    isUpperA (if d.toNat = 0x2019 then '\'' else
      if d.toNat = 0x2013 then '-' else
      if d.toNat = 0x2014 then '-' else d) = false := by
  split_ifs with h1 h2 h3
  · decide
  · decide
  · decide
  · exact hd

theorem slugify_eq (s : String) :
    slugify s =
      if slugTail (pyReplPunct ((pyStrip pyIsSpace s.data).map pyLower)) = []
      then "file"
      else String.mk (slugTail (pyReplPunct ((pyStrip pyIsSpace s.data).map pyLower))) :=
  rfl

theorem pyReplPunct_not_upper (l : List Char) :
    ∀ c ∈ pyReplPunct (l.map pyLower), isUpperA c = false := by
  intro c hc
  rcases List.mem_map.mp hc with ⟨d, hd, rfl⟩
  rcases List.mem_map.mp hd with ⟨e, _, rfl⟩
  exact repl_not_upper (pyLower_not_upper e)

theorem slugTail_mem {l2 : List Char} (h2 : ∀ c ∈ l2, isUpperA c = false) :
    ∀ c ∈ slugTail l2, isSlugChar c = true ∨ c = '-' := by
  intro c hc
  have hc6 := mem_pyStrip ((List.take_sublist 80 _).mem hc)
  rcases mem_collapseRuns hc6 with rfl | ⟨hc5, _⟩
  · exact Or.inr rfl
  rcases mem_collapseRuns hc5 with rfl | ⟨hc4s, hcsp⟩
  · exact Or.inr rfl
  have hc4 := mem_pyStrip hc4s
  rcases mem_collapseRuns hc4 with rfl | ⟨hc3, _⟩
  · exact absurd hcsp (by decide)
  have hc2 := List.mem_filter.mp hc3
  have hkeep := hc2.2
  simp only [Bool.or_eq_true] at hkeep
  rcases hkeep with (hw | hs) | hh
  · exact Or.inl (isSlugChar_of_word_not_upper hw (h2 c hc2.1))
  · rw [hs] at hcsp; cases hcsp
  · exact Or.inr (by simpa using hh)

theorem slugTail_chain (l2 : List Char) :
    (slugTail l2).Chain' (fun a b => ¬(a = '-' ∧ b = '-')) := by
  have h6 := @collapseRuns_chain' (fun c => c = '-') '-'
    (collapseRuns pyIsSpace '-' false
      (pyStrip pyIsSpace
        (collapseRuns pyIsSpace ' ' false
          (l2.filter fun c => pyIsWord c || pyIsSpace c || c = '-')))) false
  exact (pyStrip_suffix_chain (fun a b hab => by tauto)
    (h6.imp fun a b hab => by simpa using hab)).take 80

theorem slugTail_len (l2 : List Char) : (slugTail l2).length ≤ 80 := by
  rw [slugTail, List.length_take]
  exact min_le_left _ _

set_option maxHeartbeats 1000000 in
/-- C7.  For every input string, `slugify` returns a nonempty string of
at most 80 characters whose characters are lowercase word characters
(lowercase letters, digits, underscore) or hyphens, with no two
adjacent hyphens. -/
theorem slugify_wellformed (s : String) :
    slugify s ≠ "" ∧ (slugify s).length ≤ 80 ∧
    (∀ c ∈ (slugify s).data, isSlugChar c = true ∨ c = '-') ∧
    noAdjHyphens (slugify s).data = true := by
  rw [slugify_eq]
  exact slug_out_spec _ (slugTail_mem (pyReplPunct_not_upper _))
    (slugTail_chain _) (slugTail_len _)

/-! ### Lemmas: decimal digits and `altName` injectivity -/

theorem natDigitsFuel_congr :
    ∀ (f1 f2 n : Nat), n < f1 → n < f2 →
      natDigitsFuel f1 n = natDigitsFuel f2 n := by
  intro f1
  induction f1 with
  | zero => intro f2 n h1; omega
  | succ f1 ih =>
    intro f2 n h1 h2
    cases f2 with
    | zero => omega
    | succ f2 =>
      rw [natDigitsFuel, natDigitsFuel]
      by_cases hn : n < 10
      · rw [if_pos hn, if_pos hn]
      · rw [if_neg hn, if_neg hn]
        have hd : n / 10 < n := Nat.div_lt_self (by omega) (by omega)
        rw [ih f2 (n / 10) (by omega) (by omega)]

theorem natDigits_small {n : Nat} (h : n < 10) :
    natDigits n = [Char.ofNat (48 + n)] := by
  rw [natDigits, natDigitsFuel, if_pos h]

theorem natDigits_big {n : Nat} (h : ¬n < 10) :
    natDigits n = natDigits (n / 10) ++ [Char.ofNat (48 + n % 10)] := by
  rw [natDigits, natDigitsFuel, if_neg h, natDigits]
  have hd : n / 10 < n := Nat.div_lt_self (by omega) (by omega)
  rw [natDigitsFuel_congr n (n / 10 + 1) (n / 10) (by omega) (by omega)]

theorem digitChar_inj {a b : Nat} (ha : a < 10) (hb : b < 10)
    (h : Char.ofNat (48 + a) = Char.ofNat (48 + b)) : a = b := by
  have h2 := congrArg Char.toNat h
  rw [toNat_ofNat_valid (by omega), toNat_ofNat_valid (by omega)] at h2
  omega

theorem natDigits_ne_nil (n : Nat) : natDigits n ≠ [] := by
  by_cases h : n < 10
  · rw [natDigits_small h]; simp
  · rw [natDigits_big h]; simp

theorem natDigits_inj : ∀ {m n : Nat}, natDigits m = natDigits n → m = n := by
  intro m
  induction m using Nat.strong_induction_on with
  | _ m ih =>
    intro n h
    by_cases hm : m < 10 <;> by_cases hn : n < 10
    · rw [natDigits_small hm, natDigits_small hn] at h
      exact digitChar_inj hm hn (List.cons.inj h).1
    · rw [natDigits_small hm, natDigits_big hn] at h
      have hl := congrArg List.length h
      simp at hl
      have := natDigits_ne_nil (n / 10)
      cases hnil : natDigits (n / 10) with
      | nil => exact absurd hnil this
      | cons a as => rw [hnil] at hl; simp at hl
    · rw [natDigits_big hm, natDigits_small hn] at h
      have hl := congrArg List.length h
      simp at hl
      have := natDigits_ne_nil (m / 10)
      cases hnil : natDigits (m / 10) with
      | nil => exact absurd hnil this
      | cons a as => rw [hnil] at hl; simp at hl
    · rw [natDigits_big hm, natDigits_big hn] at h
      obtain ⟨h1, h2⟩ := List.append_inj' h (by simp)
      have hd : m / 10 = n / 10 :=
        ih (m / 10) (Nat.div_lt_self (by omega) (by omega)) h1
      have hmod : m % 10 = n % 10 :=
        digitChar_inj (Nat.mod_lt _ (by omega)) (Nat.mod_lt _ (by omega))
          (List.cons.inj h2).1
      omega

theorem natStr_inj {m n : Nat} (h : natStr m = natStr n) : m = n :=
  natDigits_inj (congrArg String.data h)

theorem str_data_append (a b : String) : (a ++ b).data = a.data ++ b.data :=
  rfl

theorem altName_inj {stem : String} {i j : Nat}
    (h : altName stem i = altName stem j) : i = j := by
  unfold altName at h
  have hd := congrArg String.data h
  rw [str_data_append, str_data_append, str_data_append, str_data_append,
    str_data_append, str_data_append] at hd
  obtain ⟨h1, _⟩ := List.append_inj' hd (by rfl)
  have h2 := List.append_cancel_left h1
  exact natStr_inj (congrArg String.mk h2)

/-! ### Lemmas: `secure_filename` -/

theorem exists_free_alt (stem : String) (existing : List String) :
    ∃ k ∈ List.range (existing.length + 1), altName stem (k + 1) ∉ existing := by
  by_contra hall
  push_neg at hall
  have hsub : ((List.range (existing.length + 1)).map
      (fun k => altName stem (k + 1))).toFinset ⊆ existing.toFinset := by
    intro x hx
    rw [List.mem_toFinset] at hx ⊢
    rcases List.mem_map.mp hx with ⟨k, hk, rfl⟩
    exact hall k hk
  have hnd : ((List.range (existing.length + 1)).map
      (fun k => altName stem (k + 1))).Nodup :=
    (List.nodup_range _).map
      (fun a b hab => by have := altName_inj hab; omega)
  have hcard := Finset.card_le_card hsub
  rw [List.toFinset_card_of_nodup hnd] at hcard
  have h2 := le_trans hcard existing.toFinset_card_le
  simp only [List.length_map, List.length_range] at h2
  omega

theorem secure_filename_cases (park url : String) (existing : List String) :
    (secure_filename park url existing = filenameStem park url ++ ".pdf" ∧
      filenameStem park url ++ ".pdf" ∉ existing) ∨
    (∃ k, 1 ≤ k ∧
      secure_filename park url existing = altName (filenameStem park url) k ∧
      filenameStem park url ++ ".pdf" ∈ existing ∧
      altName (filenameStem park url) k ∉ existing) := by
  unfold secure_filename
  by_cases hg : (filenameStem park url ++ ".pdf") ∈ existing
  · rw [if_pos hg]
    right
    obtain ⟨k, hk, hfree⟩ := exists_free_alt (filenameStem park url) existing
    have hsome : ((List.range (existing.length + 1)).find?
        (fun k => !(existing.contains
          (altName (filenameStem park url) (k + 1))))).isSome := by
      rw [List.find?_isSome]
      refine ⟨k, hk, ?_⟩
      simp only [Bool.not_eq_true', ← Bool.not_eq_true]
      simpa using hfree
    cases hfind : (List.range (existing.length + 1)).find?
        (fun k => !(existing.contains
          (altName (filenameStem park url) (k + 1)))) with
    | none => rw [hfind] at hsome; cases hsome
    | some k' =>
      have hp := List.find?_some hfind
      simp only [Bool.not_eq_true'] at hp
      refine ⟨k' + 1, by omega, ?_, hg, ?_⟩
      · simp only [hfind]
      · simpa using hp
  · rw [if_neg hg]
    exact Or.inl ⟨rfl, hg⟩

theorem secure_filename_not_mem (park url : String) (existing : List String) :
    secure_filename park url existing ∉ existing := by
  rcases secure_filename_cases park url existing with ⟨he, hn⟩ | ⟨k, _, he, _, hn⟩ <;>
    rw [he] <;> exact hn

theorem secure_filename_empty (park url : String) :
    secure_filename park url [] = filenameStem park url ++ ".pdf" := by
  unfold secure_filename
  rw [if_neg (List.not_mem_nil _)]

/-- C6.  `secure_filename` is deterministic (two calls with the same
entity and URL against the empty existing-name set agree); called with
an existing-name set containing that first result it returns a
different, numerically suffixed name; and its result is never a member
of the existing-name set. -/
theorem secure_filename_spec :
    (∀ park url : String,
      secure_filename park url [] = secure_filename park url []) ∧
    (∀ (park url : String) (existing : List String),
      secure_filename park url [] ∈ existing →
      (∃ k, 1 ≤ k ∧ secure_filename park url existing =
          altName (filenameStem park url) k) ∧
      secure_filename park url existing ≠ secure_filename park url []) ∧
    (∀ (park url : String) (existing : List String),
      secure_filename park url existing ∉ existing) := by
  refine ⟨fun _ _ => rfl, fun park url existing hmem => ?_,
    fun park url existing => secure_filename_not_mem park url existing⟩
  rw [secure_filename_empty] at hmem
  rcases secure_filename_cases park url existing with ⟨_, hn⟩ | ⟨k, hk, he, _, hn⟩
  · exact absurd hmem hn
  · refine ⟨⟨k, hk, he⟩, ?_⟩
    rw [secure_filename_empty]
    intro heq
    rw [heq] at he
    rw [← he] at hn
    exact hn hmem

/-- Witness for C6 at a concrete entity, URL and existing-name set. -/
theorem secure_filename_spec_witness :
    (∃ k, 1 ≤ k ∧ secure_filename "a" "u" [secure_filename "a" "u" []] =
        altName (filenameStem "a" "u") k) ∧
    secure_filename "a" "u" [secure_filename "a" "u" []] ≠
      secure_filename "a" "u" [] ∧
    secure_filename "a" "u" [secure_filename "a" "u" []] ∉
      [secure_filename "a" "u" []] := by
  have h := secure_filename_spec
  have hmem : secure_filename "a" "u" [] ∈ [secure_filename "a" "u" []] :=
    List.mem_singleton.mpr rfl
  exact ⟨(h.2.1 "a" "u" _ hmem).1, (h.2.1 "a" "u" _ hmem).2, h.2.2 "a" "u" _⟩

/-- C10.  The name returned by `secure_filename` always ends in
`".pdf"` — both the base candidate and every collision-suffixed
alternative carry the extension — and when the URL's path has an empty
basename the `"map.pdf"` fallback makes the middle slug `"map"`. -/
theorem secure_filename_pdf_extension :
    (∀ (park url : String) (existing : List String),
      ∃ p : String, secure_filename park url existing = p ++ ".pdf") ∧
    (∀ park url : String, pyBasename (urlPath url) = "" →
      filenameStem park url =
        slugify park ++ "__" ++ "map" ++ "__" ++ (sha256Hex url).take 8) := by
  constructor
  · intro park url existing
    rcases secure_filename_cases park url existing with ⟨he, _⟩ | ⟨k, _, he, _, _⟩
    · exact ⟨filenameStem park url, he⟩
    · exact ⟨filenameStem park url ++ "-" ++ natStr k, by rw [he]; rfl⟩
  · intro park url hb
    unfold filenameStem
    rw [hb]
    rfl

/-- Witness for C10 at a concrete entity and URL whose path basename is
empty. -/
theorem secure_filename_pdf_extension_witness :
    pyBasename (urlPath "http://x/") = "" ∧
    filenameStem "a" "http://x/" =
      slugify "a" ++ "__" ++ "map" ++ "__" ++ (sha256Hex "http://x/").take 8 := by
  refine ⟨by decide, secure_filename_pdf_extension.2 "a" "http://x/" (by decide)⟩

/-! ### Lemmas: `tmpName` (the temp file is the destination plus `".part"`) -/

theorem str_length_data (s : String) : s.length = s.data.length := rfl

theorem breakAtLast_append (c : Char) (l : List Char) :
    (breakAtLast c l).1 ++ (breakAtLast c l).2 = l := by
  induction l with
  | nil => rfl
  | cons a as ih =>
    unfold breakAtLast
    by_cases h : c ∈ as
    · rw [if_pos h]
      simpa using ih
    · rw [if_neg h]
      rfl

theorem breakAtLast_snd_suffix (c : Char) (l : List Char) :
    (breakAtLast c l).2 <:+ l :=
  ⟨(breakAtLast c l).1, breakAtLast_append c l⟩

theorem pyBasename_suffix (s : String) : (pyBasename s).data <:+ s.data := by
  unfold pyBasename
  by_cases h : ((breakAtLast '/' s.data).2).head? = some '/'
  · rw [if_pos h]
    exact ((List.drop_suffix 1 _).trans (breakAtLast_snd_suffix '/' s.data))
  · rw [if_neg h]
    exact breakAtLast_snd_suffix '/' s.data

theorem pathSuffix_suffix (p : String) : (pathSuffix p).data <:+ p.data := by
  unfold pathSuffix
  by_cases h : (breakAtLast '.' (pyBasename p).data).1 ≠ [] ∧
      ((breakAtLast '.' (pyBasename p).data).2).head? = some '.'
  · rw [if_pos h]
    exact (breakAtLast_snd_suffix '.' _).trans (pyBasename_suffix p)
  · rw [if_neg h]
    exact List.nil_suffix

theorem suffix_take_append {α : Type} {l t : List α} (h : t <:+ l) :
    l.take (l.length - t.length) ++ t = l := by
  obtain ⟨s, rfl⟩ := h
  rw [List.length_append, Nat.add_sub_cancel, List.take_left]

theorem tmpName_eq (dest : String) : tmpName dest = dest ++ ".part" := by
  have h1 : (String.mk (dest.data.take
      (dest.data.length - (pathSuffix dest).length)) ++ pathSuffix dest).data
      = dest.data := by
    rw [str_data_append]
    exact suffix_take_append (pathSuffix_suffix dest)
  show (String.mk (dest.data.take (dest.data.length - (pathSuffix dest).length))
      ++ pathSuffix dest) ++ ".part" = dest ++ ".part"
  rw [String.ext h1]

theorem tmpName_ne (dest : String) : tmpName dest ≠ dest := by
  rw [tmpName_eq]
  intro h
  have h2 := congrArg String.length h
  rw [str_length_data, str_length_data, str_data_append,
    List.length_append] at h2
  simp at h2

/-! ### Lemmas: the filesystem model -/

theorem removeFile_cons (k : String) (v : List Nat) (es : Fs) (p : String) :
    removeFile ((k, v) :: es) p =
      if k ≠ p then (k, v) :: removeFile es p else removeFile es p := by
  unfold removeFile
  rw [List.filter_cons]
  by_cases hk : k = p
  · simp [hk]
  · simp [hk]

theorem lookup_removeFile_ne {fs : Fs} {p q : String} (h : q ≠ p) :
    List.lookup q (removeFile fs p) = List.lookup q fs := by
  induction fs with
  | nil => rfl
  | cons e es ih =>
    obtain ⟨k, v⟩ := e
    rw [removeFile_cons]
    by_cases hk : k = p
    · rw [if_neg (by simpa using hk)]
      have hqk : (q == k) = false := by
        subst hk
        simpa using h
      rw [ih]
      simp only [List.lookup_cons, hqk]
    · rw [if_pos hk]
      cases hq : q == k <;> simp only [List.lookup_cons, hq, ih]

theorem lookup_removeFile_self (fs : Fs) (p : String) :
    List.lookup p (removeFile fs p) = none := by
  induction fs with
  | nil => rfl
  | cons e es ih =>
    obtain ⟨k, v⟩ := e
    rw [removeFile_cons]
    by_cases hk : k = p
    · rw [if_neg (by simpa using hk)]
      exact ih
    · rw [if_pos hk]
      have hpk : (p == k) = false := by
        simp only [beq_eq_false_iff_ne, ne_eq]
        exact fun hp => hk hp.symm
      simp only [List.lookup_cons, hpk, ih]

theorem lookup_setFile_self (fs : Fs) (p : String) (bs : List Nat) :
    List.lookup p (setFile fs p bs) = some bs := by
  unfold setFile
  simp only [List.lookup_cons, beq_self_eq_true]

theorem lookup_setFile_ne {fs : Fs} {p q : String} (bs : List Nat)
    (h : q ≠ p) : List.lookup q (setFile fs p bs) = List.lookup q fs := by
  unfold setFile
  have hqp : (q == p) = false := by simpa using h
  simp only [List.lookup_cons, hqp]
  exact lookup_removeFile_ne h

/-- C2.  `download_one` streams into a temporary sibling file — the
destination path plus the provisional suffix `".part"` — and only a
fully successful transfer renames it onto the destination (which then
holds exactly the transferred bytes, with the byte count and SHA-256
hex digest reported).  On every failing outcome the result is
`(false, 0, "")`, the destination entry is untouched (so if nothing was
at the destination before, nothing is after), and at most the temp file
differs. -/
theorem download_one_spec (net : String → NetOutcome) (url dest : String)
    (fs : Fs) :
    tmpName dest = dest ++ ".part" ∧
    (net url = .failBefore →
      download_one net url dest fs = (fs, (false, 0, ""))) ∧
    (∀ bs, net url = .failMid bs →
      (download_one net url dest fs).2 = (false, 0, "") ∧
      List.lookup dest (download_one net url dest fs).1 =
        List.lookup dest fs ∧
      List.lookup (tmpName dest) (download_one net url dest fs).1 =
        some bs ∧
      ∀ p, p ≠ tmpName dest →
        List.lookup p (download_one net url dest fs).1 =
          List.lookup p fs) ∧
    (∀ bs, net url = .success bs →
      (download_one net url dest fs).2 =
        (true, bs.length, bytesHex (sha256Bytes bs)) ∧
      List.lookup dest (download_one net url dest fs).1 = some bs ∧
      List.lookup (tmpName dest) (download_one net url dest fs).1 = none) ∧
    (List.lookup dest fs = none →
      (net url = .failBefore ∨ ∃ bs, net url = .failMid bs) →
      List.lookup dest (download_one net url dest fs).1 = none) := by
  have hdt : dest ≠ tmpName dest := (tmpName_ne dest).symm
  have htd : tmpName dest ≠ dest := tmpName_ne dest
  refine ⟨tmpName_eq dest, ?_, ?_, ?_, ?_⟩
  · intro h
    unfold download_one
    rw [h]
  · intro bs h
    unfold download_one
    rw [h]
    refine ⟨rfl, lookup_setFile_ne bs hdt, lookup_setFile_self fs _ bs,
      fun p hp => lookup_setFile_ne bs hp⟩
  · intro bs h
    unfold download_one
    rw [h]
    refine ⟨rfl, lookup_setFile_self _ dest bs, ?_⟩
    rw [lookup_setFile_ne bs htd]
    exact lookup_removeFile_self fs (tmpName dest)
  · intro hnone hfail
    rcases hfail with h | ⟨bs, h⟩
    · unfold download_one
      rw [h]
      exact hnone
    · unfold download_one
      rw [h]
      rw [lookup_setFile_ne bs hdt]
      exact hnone

/-- Witness for C2: a mid-transfer failure on an empty store leaves the
destination absent and reports `(false, 0, "")`; a successful transfer
places exactly the bytes at the destination. -/
theorem download_one_spec_witness :
    ((download_one (fun _ => .failMid [7]) "u" "d.pdf" []).2 =
        (false, 0, "") ∧
      List.lookup "d.pdf"
        (download_one (fun _ => .failMid [7]) "u" "d.pdf" []).1 =
        List.lookup "d.pdf" ([] : Fs)) ∧
    List.lookup "d.pdf"
      (download_one (fun _ => .success [7]) "u" "d.pdf" []).1 = some [7] := by
  refine ⟨⟨((download_one_spec (fun _ => .failMid [7]) "u" "d.pdf"
        []).2.2.1 [7] rfl).1,
      ((download_one_spec (fun _ => .failMid [7]) "u" "d.pdf"
        []).2.2.1 [7] rfl).2.1⟩,
    ((download_one_spec (fun _ => .success [7]) "u" "d.pdf"
        []).2.2.2.1 [7] rfl).2.1⟩

/-! ### Lemmas: `process_row` and the sequential fold -/

theorem process_row_skip (en : List String) (dn : String) (f : Bool)
    (net : String → NetOutcome) (st : RunState) (r : Row)
    (h : rowKey r ∈ st.seen) : process_row en dn f net st r = st := by
  unfold process_row
  rw [if_pos h]

theorem process_row_new (en : List String) (dn : String) (f : Bool)
    (net : String → NetOutcome) (st : RunState) (r : Row)
    (h : rowKey r ∉ st.seen) :
    ∃ (it : Item) (fs' : Fs) (log' : List String),
      process_row en dn f net st r =
        { fs := fs', seen := st.seen ++ [rowKey r],
          items := st.items ++ [it], fetchLog := log' } ∧
      it.park = r.park ∧ it.source_url = r.pdf_url ∧
      it.filename = secure_filename r.park r.pdf_url en ∧
      (it.download_ok = false → it.size_bytes = 0 ∧ it.sha256 = "") := by
  simp only [process_row]
  rw [if_neg h]
  by_cases hc : ((List.lookup (secure_filename r.park r.pdf_url en)
      st.fs).isSome && !f) = true
  · rw [if_pos hc]
    refine ⟨_, st.fs, st.fetchLog, rfl, rfl, rfl, rfl, ?_⟩
    intro hok
    simp at hok
  · rw [if_neg hc]
    refine ⟨_, _, _, rfl, rfl, rfl, rfl, ?_⟩
    intro hok
    cases hnet : net r.pdf_url with
    | failBefore => simp [download_one, hnet]
    | failMid bs => simp [download_one, hnet]
    | success bs =>
      simp only [download_one, hnet] at hok
      cases hok

theorem build_fold_spec (en : List String) (dn : String) (f : Bool)
    (net : String → NetOutcome) :
    ∀ (rows : List Row) (st : RunState),
      (rows.foldl (process_row en dn f net) st).seen =
        st.seen ++ dedupKeysFrom st.seen (rows.map rowKey) ∧
      (rows.foldl (process_row en dn f net) st).items.map itemKey =
        st.items.map itemKey ++ dedupKeysFrom st.seen (rows.map rowKey) := by
  intro rows
  induction rows with
  | nil => intro st; simp [dedupKeysFrom]
  | cons r rs ih =>
    intro st
    simp only [List.foldl_cons, List.map_cons]
    by_cases hk : rowKey r ∈ st.seen
    · rw [process_row_skip en dn f net st r hk, dedupKeysFrom, if_pos hk]
      exact ih st
    · obtain ⟨it, fs', log', heq, hpark, hsrc, _, _⟩ :=
        process_row_new en dn f net st r hk
      rw [heq, dedupKeysFrom, if_neg hk]
      have hkey : itemKey it = rowKey r := by
        unfold itemKey rowKey
        rw [hpark, hsrc]
      obtain ⟨h1, h2⟩ := ih ⟨fs', st.seen ++ [rowKey r], st.items ++ [it], log'⟩
      constructor
      · rw [h1]
        simp [List.append_assoc]
      · rw [h2]
        simp [hkey, List.append_assoc]

theorem foldl_dedupRows (en : List String) (dn : String) (f : Bool)
    (net : String → NetOutcome) :
    ∀ (rows : List Row) (st : RunState),
      rows.foldl (process_row en dn f net) st =
        (dedupRowsFrom st.seen rows).foldl (process_row en dn f net) st := by
  intro rows
  induction rows with
  | nil => intro st; rfl
  | cons r rs ih =>
    intro st
    rw [dedupRowsFrom]
    by_cases hk : rowKey r ∈ st.seen
    · rw [if_pos hk, List.foldl_cons, process_row_skip en dn f net st r hk]
      exact ih st
    · obtain ⟨it, fs', log', heq, _, _, _, _⟩ :=
        process_row_new en dn f net st r hk
      rw [if_neg hk, List.foldl_cons, List.foldl_cons, heq]
      have := ih ⟨fs', st.seen ++ [rowKey r], st.items ++ [it], log'⟩
      simpa using this

theorem mem_dedupKeysFrom :
    ∀ (ks : List (String × String)) (seen : List (String × String))
      (k : String × String),
      k ∈ dedupKeysFrom seen ks ↔ (k ∈ ks ∧ k ∉ seen) := by
  intro ks
  induction ks with
  | nil => intro seen k; simp [dedupKeysFrom]
  | cons a ks ih =>
    intro seen k
    rw [dedupKeysFrom]
    by_cases ha : a ∈ seen
    · rw [if_pos ha, ih]
      constructor
      · rintro ⟨h1, h2⟩
        exact ⟨List.mem_cons_of_mem a h1, h2⟩
      · rintro ⟨h1, h2⟩
        rcases List.mem_cons.mp h1 with rfl | h1
        · exact absurd ha h2
        · exact ⟨h1, h2⟩
    · rw [if_neg ha]
      rw [List.mem_cons, ih]
      simp only [List.mem_append, List.mem_cons, List.not_mem_nil, or_false]
      by_cases hak : k = a
      · subst hak
        tauto
      · tauto

theorem nodup_dedupKeysFrom :
    ∀ (ks : List (String × String)) (seen : List (String × String)),
      (dedupKeysFrom seen ks).Nodup := by
  intro ks
  induction ks with
  | nil => intro seen; simp [dedupKeysFrom]
  | cons a ks ih =>
    intro seen
    rw [dedupKeysFrom]
    by_cases ha : a ∈ seen
    · rw [if_pos ha]
      exact ih seen
    · rw [if_neg ha]
      refine List.nodup_cons.mpr ⟨?_, ih (seen ++ [a])⟩
      intro hmem
      have := (mem_dedupKeysFrom ks (seen ++ [a]) a).mp hmem
      exact this.2 (List.mem_append.mpr (Or.inr (List.mem_singleton.mpr rfl)))

/-- C9.  With a worker count of 1 or less, `build_index` processes rows
sequentially (the plain fold embedded by `build_index_state`), and the
items list carries the keys of the rows in input order, restricted to
the first occurrence of each `(park, url)` key. -/
theorem build_index_seq_order (rows : List Row) (fs0 : Fs) (dn : String)
    (force : Bool) (net : String → NetOutcome) :
    (build_index_state rows fs0 dn force net).items.map itemKey =
      dedupKeysFrom [] (rows.map rowKey) := by
  have h := (build_fold_spec (fs0.map Prod.fst) dn force net rows
    { fs := fs0, seen := [], items := [], fetchLog := [] }).2
  simpa [build_index_state] using h

/-- C5.  The builder emits exactly one entry per unique `(park, url)`
key: the run is unchanged by deleting every row whose exact key
occurred earlier (first occurrence wins, later duplicates are skipped
entirely), and each key present in the input appears in exactly one
emitted item. -/
theorem count_eq_ite_of_nodup {l : List (String × String)} (h : l.Nodup)
    (k : String × String) : l.count k = if k ∈ l then 1 else 0 := by
  induction l with
  | nil => simp
  | cons a as ih =>
    have hnd := List.nodup_cons.mp h
    rw [List.count_cons, ih hnd.2]
    by_cases hk : k = a
    · subst hk
      rw [if_neg hnd.1, if_pos (List.mem_cons_self k as)]
      simp
    · have hba : (a == k) = false := by
        simp only [beq_eq_false_iff_ne, ne_eq]
        exact fun ha => hk ha.symm
      rw [hba]
      by_cases hm : k ∈ as
      · rw [if_pos hm, if_pos (List.mem_cons_of_mem a hm)]
        simp
      · rw [if_neg hm]
        simp [hk, hm]

theorem build_index_one_entry_per_key (rows : List Row) (fs0 : Fs)
    (dn : String) (force : Bool) (net : String → NetOutcome) :
    build_index_state rows fs0 dn force net =
      build_index_state (dedupRowsFrom [] rows) fs0 dn force net ∧
    ∀ k : String × String,
      ((build_index_state rows fs0 dn force net).items.map itemKey).count k =
        if k ∈ rows.map rowKey then 1 else 0 := by
  constructor
  · unfold build_index_state
    exact foldl_dedupRows (fs0.map Prod.fst) dn force net rows
      { fs := fs0, seen := [], items := [], fetchLog := [] }
  · intro k
    have hkeys : (build_index_state rows fs0 dn force net).items.map itemKey =
        dedupKeysFrom [] (rows.map rowKey) := by
      have h := (build_fold_spec (fs0.map Prod.fst) dn force net rows
        { fs := fs0, seen := [], items := [], fetchLog := [] }).2
      simpa [build_index_state] using h
    rw [hkeys, count_eq_ite_of_nodup (nodup_dedupKeysFrom _ _)]
    simp [mem_dedupKeysFrom]

theorem process_row_pres_c3 (en : List String) (dn : String) (f : Bool)
    (net : String → NetOutcome) (st : RunState) (r : Row)
    (h : ∀ it ∈ st.items,
      it.download_ok = false → it.size_bytes = 0 ∧ it.sha256 = "") :
    ∀ it ∈ (process_row en dn f net st r).items,
      it.download_ok = false → it.size_bytes = 0 ∧ it.sha256 = "" := by
  by_cases hk : rowKey r ∈ st.seen
  · rw [process_row_skip en dn f net st r hk]
    exact h
  · obtain ⟨it0, fs', log', heq, _, _, _, hc3⟩ :=
      process_row_new en dn f net st r hk
    rw [heq]
    intro it hmem
    rcases List.mem_append.mp hmem with hmem | hmem
    · exact h it hmem
    · rw [List.mem_singleton.mp hmem]
      exact hc3

/-- C3.  Every catalog entry with `download_ok = false` has
`size_bytes = 0` and `sha256 = ""` (the `(false, 0, "")` failure triple
of `download_one` is recorded verbatim). -/
theorem build_index_failed_entries (rows : List Row) (fs0 : Fs)
    (dn : String) (force : Bool) (net : String → NetOutcome) :
    ∀ it ∈ (build_index_state rows fs0 dn force net).items,
      it.download_ok = false → it.size_bytes = 0 ∧ it.sha256 = "" := by
  unfold build_index_state
  suffices h : ∀ (rows' : List Row) (st : RunState),
      (∀ it ∈ st.items,
        it.download_ok = false → it.size_bytes = 0 ∧ it.sha256 = "") →
      ∀ it ∈ (rows'.foldl
          (process_row (fs0.map Prod.fst) dn force net) st).items,
        it.download_ok = false → it.size_bytes = 0 ∧ it.sha256 = "" by
    exact h rows { fs := fs0, seen := [], items := [], fetchLog := [] }
      (by intro it hit; cases hit)
  intro rows'
  induction rows' with
  | nil => intro st h; exact h
  | cons r rs ih =>
    intro st h
    exact ih _ (process_row_pres_c3 (fs0.map Prod.fst) dn force net st r h)

set_option maxRecDepth 8000 in
/-- Witness for C3: a run whose only fetch fails yields an entry with
`download_ok = false`, and the theorem forces its size and hash to be
zero and empty. -/
theorem build_index_failed_entries_witness :
    (((build_index_state [{ park := "A", state := "ME", pdf_url := "u" }]
        [] "pdfs" false (fun _ => .failBefore)).items.getD 0
          default).size_bytes = 0 ∧
      ((build_index_state [{ park := "A", state := "ME", pdf_url := "u" }]
        [] "pdfs" false (fun _ => .failBefore)).items.getD 0
          default).sha256 = "") := by
  exact build_index_failed_entries
    [{ park := "A", state := "ME", pdf_url := "u" }] [] "pdfs" false
    (fun _ => .failBefore) _ (by decide) (by decide)

theorem process_row_pres_c1 (en : List String) (dn : String) (f : Bool)
    (net : String → NetOutcome) (st : RunState) (r : Row)
    (h : ∀ it ∈ st.items,
      it.filename = secure_filename it.park it.source_url en ∧
      it.filename ∉ en) :
    ∀ it ∈ (process_row en dn f net st r).items,
      it.filename = secure_filename it.park it.source_url en ∧
      it.filename ∉ en := by
  by_cases hk : rowKey r ∈ st.seen
  · rw [process_row_skip en dn f net st r hk]
    exact h
  · obtain ⟨it0, fs', log', heq, hpark, hsrc, hfn, _⟩ :=
      process_row_new en dn f net st r hk
    rw [heq]
    intro it hmem
    rcases List.mem_append.mp hmem with hmem | hmem
    · exact h it hmem
    · rw [List.mem_singleton.mp hmem]
      refine ⟨?_, ?_⟩
      · rw [hfn, hpark, hsrc]
      · rw [hfn]
        exact secure_filename_not_mem r.park r.pdf_url en

/-- C1 (amended).  Every emitted entry's file name is
`secure_filename` of its own entity and URL against the existing-name
set listed from the store directory at the start of the run, and so is
never a member of that pre-seeded set.  The set is not updated as names
are claimed during the run (see the collision counterexample). -/
theorem build_index_filenames (rows : List Row) (fs0 : Fs) (dn : String)
    (force : Bool) (net : String → NetOutcome) :
    ∀ it ∈ (build_index_state rows fs0 dn force net).items,
      it.filename = secure_filename it.park it.source_url
        (fs0.map Prod.fst) ∧
      it.filename ∉ fs0.map Prod.fst := by
  unfold build_index_state
  suffices h : ∀ (rows' : List Row) (st : RunState),
      (∀ it ∈ st.items,
        it.filename = secure_filename it.park it.source_url
          (fs0.map Prod.fst) ∧ it.filename ∉ fs0.map Prod.fst) →
      ∀ it ∈ (rows'.foldl
          (process_row (fs0.map Prod.fst) dn force net) st).items,
        it.filename = secure_filename it.park it.source_url
          (fs0.map Prod.fst) ∧ it.filename ∉ fs0.map Prod.fst by
    exact h rows { fs := fs0, seen := [], items := [], fetchLog := [] }
      (by intro it hit; cases hit)
  intro rows'
  induction rows' with
  | nil => intro st h; exact h
  | cons r rs ih =>
    intro st h
    exact ih _ (process_row_pres_c1 (fs0.map Prod.fst) dn force net st r h)

set_option maxRecDepth 8000 in
/-- Witness for C1 (amended), on a store that already holds one
unrelated file. -/
theorem build_index_filenames_witness :
    ((build_index_state [{ park := "A", state := "ME", pdf_url := "u" }]
        [("x.pdf", [1])] "pdfs" false (fun _ => .success [2])).items.getD 0
          default).filename =
      secure_filename
        ((build_index_state [{ park := "A", state := "ME", pdf_url := "u" }]
          [("x.pdf", [1])] "pdfs" false
          (fun _ => .success [2])).items.getD 0 default).park
        ((build_index_state [{ park := "A", state := "ME", pdf_url := "u" }]
          [("x.pdf", [1])] "pdfs" false
          (fun _ => .success [2])).items.getD 0 default).source_url
        ["x.pdf"] ∧
    ((build_index_state [{ park := "A", state := "ME", pdf_url := "u" }]
        [("x.pdf", [1])] "pdfs" false (fun _ => .success [2])).items.getD 0
          default).filename ∉ ["x.pdf"] :=
  build_index_filenames [{ park := "A", state := "ME", pdf_url := "u" }]
    [("x.pdf", [1])] "pdfs" false (fun _ => .success [2]) _ (by decide)

set_option maxRecDepth 8000 in
/-- Counterexample to C1 as stated: two distinct processed rows —
entities differing only in case, same URL, distinct dedup keys — are
assigned the same `filename` in a single run, because `existing_names`
is never updated as names are claimed. -/
theorem build_index_filename_collision :
    (build_index_state
        [{ park := "Acadia", state := "ME", pdf_url := "http://x/a.pdf" },
         { park := "acadia", state := "ME", pdf_url := "http://x/a.pdf" }]
        [] "pdfs" false (fun _ => .success [1, 2])).items.length = 2 ∧
    ((build_index_state
        [{ park := "Acadia", state := "ME", pdf_url := "http://x/a.pdf" },
         { park := "acadia", state := "ME", pdf_url := "http://x/a.pdf" }]
        [] "pdfs" false (fun _ => .success [1, 2])).items.getD 0
          default).filename =
      ((build_index_state
        [{ park := "Acadia", state := "ME", pdf_url := "http://x/a.pdf" },
         { park := "acadia", state := "ME", pdf_url := "http://x/a.pdf" }]
        [] "pdfs" false (fun _ => .success [1, 2])).items.getD 1
          default).filename ∧
    ((build_index_state
        [{ park := "Acadia", state := "ME", pdf_url := "http://x/a.pdf" },
         { park := "acadia", state := "ME", pdf_url := "http://x/a.pdf" }]
        [] "pdfs" false (fun _ => .success [1, 2])).items.getD 0
          default).park ≠
      ((build_index_state
        [{ park := "Acadia", state := "ME", pdf_url := "http://x/a.pdf" },
         { park := "acadia", state := "ME", pdf_url := "http://x/a.pdf" }]
        [] "pdfs" false (fun _ => .success [1, 2])).items.getD 1
          default).park := by
  refine ⟨by decide, by decide, by decide⟩

set_option maxRecDepth 8000 in
/-- C4 (code bug).  Re-running against a store that already contains
the row's previously fetched file does not skip: the pre-seeded
`existing_names` contains the base candidate, so `secure_filename`
diverts to a `-1`-suffixed name, the existence check fails, and a
network fetch is performed (the fetch log is nonempty) under the new
name — contradicting the claimed zero network requests. -/
theorem build_index_rerun_refetches :
    (build_index_state
        [{ park := "Acadia", state := "ME", pdf_url := "http://x/a.pdf" }]
        [(secure_filename "Acadia" "http://x/a.pdf" [], [1, 2])] "pdfs" false
        (fun _ => .success [1, 2])).fetchLog = ["http://x/a.pdf"] ∧
    (build_index_state
        [{ park := "Acadia", state := "ME", pdf_url := "http://x/a.pdf" }]
        [(secure_filename "Acadia" "http://x/a.pdf" [], [1, 2])] "pdfs" false
        (fun _ => .success [1, 2])).items.map (fun it => it.filename) =
      [altName (filenameStem "Acadia" "http://x/a.pdf") 1] := by
  refine ⟨by decide, by decide⟩

/-! ### Lemmas: CSV parsing -/

theorem rowOfRecord_blank (fieldnames : List String) (rec : List String)
    (h : pyStripStr (getCol fieldnames rec "pdf_url") = "" ∨
      pyStripStr (getCol fieldnames rec "park") = "") :
    rowOfRecord fieldnames rec = none := by
  simp only [rowOfRecord]
  rcases h with h | h <;> simp [h]

theorem getCol_append (fieldnames rec extra : List String) (f : String)
    (h : fieldnames.length ≤ rec.length) :
    getCol fieldnames (rec ++ extra) f = getCol fieldnames rec f := by
  unfold getCol
  cases hidx : fieldnames.findIdx? (· = f) with
  | none => rfl
  | some i =>
    have hi : i < fieldnames.length :=
      (List.findIdx?_eq_some_iff_findIdx_eq.mp hidx).1
    show (rec ++ extra).getD i "" = rec.getD i ""
    rw [List.getD_append _ _ _ _ (by omega)]

theorem rowOfRecord_append (fieldnames rec extra : List String)
    (h : fieldnames.length ≤ rec.length) :
    rowOfRecord fieldnames (rec ++ extra) = rowOfRecord fieldnames rec := by
  unfold rowOfRecord
  rw [getCol_append fieldnames rec extra "pdf_url" h,
    getCol_append fieldnames rec extra "park" h,
    getCol_append fieldnames rec extra "state" h]

/-- C8.  With all required columns in the header, parsing keeps exactly
the rows whose park and URL are nonblank after trimming (a row with a
blank park or URL is dropped, producing nothing; extra cells beyond the
header do not change a row's parse); with a required column missing,
parsing fails with the fatal header error, which aborts the pipeline
before the builder ever runs — no entry, no fetch. -/
theorem read_csv_rows_spec (fieldnames : List String)
    (records : List (List String)) (fs0 : Fs) (dn : String) (force : Bool)
    (net : String → NetOutcome) :
    (requiredCols.all (fun f => fieldnames.contains f) = true →
      read_csv_rows fieldnames records =
        .ok (records.filterMap (rowOfRecord fieldnames))) ∧
    (∀ rec, (pyStripStr (getCol fieldnames rec "pdf_url") = "" ∨
        pyStripStr (getCol fieldnames rec "park") = "") →
      rowOfRecord fieldnames rec = none) ∧
    (∀ rec extra, fieldnames.length ≤ rec.length →
      rowOfRecord fieldnames (rec ++ extra) = rowOfRecord fieldnames rec) ∧
    (¬ requiredCols.all (fun f => fieldnames.contains f) = true →
      read_csv_rows fieldnames records =
        .error "CSV must have columns: park,state,pdf_url" ∧
      run_pipeline fieldnames records fs0 dn force net =
        .error "CSV must have columns: park,state,pdf_url") := by
  refine ⟨?_, rowOfRecord_blank fieldnames,
    rowOfRecord_append fieldnames, ?_⟩
  · intro h
    unfold read_csv_rows
    rw [if_pos h]
  · intro h
    have herr : read_csv_rows fieldnames records =
        .error "CSV must have columns: park,state,pdf_url" := by
      unfold read_csv_rows
      rw [if_neg h]
    refine ⟨herr, ?_⟩
    unfold run_pipeline
    rw [herr]

/-- Witness for C8 on a concrete header and record set. -/
theorem read_csv_rows_spec_witness :
    read_csv_rows ["park", "state", "pdf_url"]
        [["Acadia", "ME", "http://x/a.pdf"], ["Denali", "AK", ""]] =
      .ok [{ park := "Acadia", state := "ME",
             pdf_url := "http://x/a.pdf" }] ∧
    rowOfRecord ["park", "state", "pdf_url"] ["Denali", "AK", ""] = none ∧
    rowOfRecord ["park", "state", "pdf_url"]
        (["Acadia", "ME", "http://x/a.pdf"] ++ ["extra"]) =
      rowOfRecord ["park", "state", "pdf_url"]
        ["Acadia", "ME", "http://x/a.pdf"] ∧
    run_pipeline ["park", "state"] [] [] "pdfs" false
        (fun _ => .failBefore) =
      .error "CSV must have columns: park,state,pdf_url" := by
  have h := read_csv_rows_spec ["park", "state", "pdf_url"]
    [["Acadia", "ME", "http://x/a.pdf"], ["Denali", "AK", ""]]
    [] "pdfs" false (fun _ => .failBefore)
  have h2 := read_csv_rows_spec ["park", "state"] [] [] "pdfs" false
    (fun _ => .failBefore)
  refine ⟨?_, h.2.1 ["Denali", "AK", ""] (Or.inl (by decide)),
    h.2.2.1 ["Acadia", "ME", "http://x/a.pdf"] ["extra"] (by decide),
    (h2.2.2.2 (by decide)).2⟩
  rw [h.1 (by decide)]
  rfl
